import Mathlib

/-!
Verification of the Habito habit-tracker's streak/score engine and UI
helpers.  Data model and UI helpers are embedded from the TypeScript
source under `src/frontend` and `src/unnamed`; the backend streak/score
calculators are referenced by the repository structure but their bodies
are not in the inspected source, so they are modelled from the spec
(sections 4.1-4.3), as marked on each such definition.
-/

namespace Habito

/-- `habit_type` column: 'boolean' | 'numerical' | 'duration'
    (src/frontend/src/types/index.ts). -/
inductive HabitType where
  | boolean
  | numerical
  | duration
deriving DecidableEq, Repr

/-- `target_type` column: 'at_least' | 'at_most'. -/
inductive TargetType where
  | at_least
  | at_most
deriving DecidableEq, Repr

/-- Repetition `status` column: 'completed' | 'skipped' | 'failed' plus the
    fourth source status (a day only partly done), here named `partway`
    because its source spelling is a reserved word in Lean. -/
inductive RepStatus where
  | completed
  | skipped
  | failed
  | partway
deriving DecidableEq, Repr

/-- The fields of a habit row relevant to scheduling and scoring
    (src/frontend/src/types/index.ts, `Habit`).  Values are rationals
    standing for the numeric columns. -/
structure Habit where
  habit_type : HabitType
  target_value : Option ℚ
  target_type : Option TargetType
  freq_num : ℕ
  freq_den : ℕ
  weekday_schedule : ℕ
deriving DecidableEq, Repr

/-- The fields of a repetition row relevant to the calculators
    (src/frontend/src/types/index.ts, `Repetition`).  Dates are day
    indices with day 0 a Sunday, so the weekday of day `d` is `d % 7`. -/
structure Repetition where
  habit_id : ℕ
  date : ℕ
  status : RepStatus
  value : ℚ
deriving DecidableEq, Repr

/-! ### Schedule evaluator (modelled from spec section 4.1) -/

/-- Modelled from the spec: a day is scheduled for a weekday-restricted
    habit iff its weekday bit is set in `weekday_schedule` (bit i = day i
    active, i = 0 is Sunday).  The backend schedule evaluator is not in
    the inspected source. -/
def isScheduled (h : Habit) (d : ℕ) : Bool :=
  h.weekday_schedule.testBit (d % 7)

/-- Modelled from the spec: a repetition qualifies if its status is
    `completed`, or if it is the partly-done status and, for
    numerical/duration habits, its value meets `target_type` against
    `target_value`.  The backend schedule evaluator is not in the
    inspected source. -/
def qualifies (h : Habit) (r : Repetition) : Bool :=
  match r.status with
  | .completed => true
  | .partway =>
    match h.habit_type, h.target_value, h.target_type with
    | .numerical, some t, some .at_least => t ≤ r.value
    | .numerical, some t, some .at_most => r.value ≤ t
    | .duration, some t, some .at_least => t ≤ r.value
    | .duration, some t, some .at_most => r.value ≤ t
    | _, _, _ => false
  | .skipped => false
  | .failed => false

/-- Modelled from the spec: the rolling window of `freq_den` days ending
    on day `d` is satisfied if it contains at least `freq_num` qualifying
    repetitions.  The backend schedule evaluator is not in the inspected
    source. -/
def windowSatisfied (h : Habit) (reps : List Repetition) (d : ℕ) : Bool :=
  h.freq_num ≤
    (reps.filter (fun r => d < r.date + h.freq_den && r.date ≤ d && qualifies h r)).length

/-! ### Score calculator (modelled from spec section 4.3) -/

/-- Outcome of a single day fed to the score calculator: whether the day
    was due (scheduled) and whether its window was satisfied. -/
structure DayOutcome where
  due : Bool
  satisfied : Bool
deriving DecidableEq, Repr

/-- Clamp a rational to [0, 1]. -/
def clamp01 (x : ℚ) : ℚ := max 0 (min 1 x)

/-- Modelled from the spec: on a due day,
    `newScore = previousScore * k + (satisfied ? 1.0 : 0.0) * (1 - k)`,
    clamped to [0,1]; on a day that is not due the score is carried
    forward unchanged.  The backend score calculator is not in the
    inspected source. -/
def computeScore (k : ℚ) (prev : ℚ) (o : DayOutcome) : ℚ :=
  if o.due then clamp01 (prev * k + (if o.satisfied then (1 : ℚ) else 0) * (1 - k))
  else prev

/-- The per-step score series produced by running `computeScore` over a
    chronological list of day outcomes, starting from `prev`. -/
def scoreTrace (k : ℚ) (prev : ℚ) : List DayOutcome → List ℚ
  | [] => []
  | o :: os =>
    let s := computeScore k prev o
    s :: scoreTrace k s os

/-- The final score after running `computeScore` over a chronological
    list of day outcomes, starting from the initial score 0. -/
def finalScore (k : ℚ) (outs : List DayOutcome) : ℚ :=
  outs.foldl (computeScore k) 0

/-- Modelled from the spec: fixed-point storage of a score, an integer
    in [0, 100000] (`scores.score` column, src/frontend/src/types/index.ts
    schema lines 406-421). -/
def storedScore (s : ℚ) : ℤ := ⌊s * 100000⌋

/-! ### Streak calculator (modelled from spec section 4.2) -/

/-- Running state of the streak walk: the running counter `run`, the
    start and end dates of the in-progress interval, the best length seen
    so far, and the closed intervals recorded on resets. -/
structure StreakState where
  run : ℕ
  runStart : ℕ
  runEnd : ℕ
  best : ℕ
  intervals : List (ℕ × ℕ × ℕ)
deriving DecidableEq, Repr

def initStreakState : StreakState := ⟨0, 0, 0, 0, []⟩

/-- Modelled from the spec: one day of the streak walk.  On a scheduled
    day, a satisfied window extends the run (and updates the best), an
    unsatisfied one resets the run to 0, recording the just-closed
    interval when the run was positive; non-scheduled days are skipped
    without affecting the run.  The backend streak calculator is not in
    the inspected source. -/
def streakStep (h : Habit) (reps : List Repetition) (st : StreakState) (d : ℕ) :
    StreakState :=
  if isScheduled h d then
    if windowSatisfied h reps d then
      { run := st.run + 1
        runStart := if st.run = 0 then d else st.runStart
        runEnd := d
        best := max st.best (st.run + 1)
        intervals := st.intervals }
    else if st.run = 0 then st
    else
      { run := 0, runStart := 0, runEnd := 0, best := st.best
        intervals := st.intervals ++ [(st.runStart, st.runEnd, st.run)] }
  else st

/-- Result of the streak calculator: current streak, best streak, and
    the recorded closed intervals (start, end, length). -/
structure StreakResult where
  current : ℕ
  best : ℕ
  intervals : List (ℕ × ℕ × ℕ)
deriving DecidableEq, Repr

def streakWalk (h : Habit) (reps : List Repetition) (startDay today : ℕ) :
    StreakState :=
  (List.range' startDay (today + 1 - startDay)).foldl (streakStep h reps)
    initStreakState

/-- Modelled from the spec: `computeStreaks` walks the days from the
    habit's start day (creation or first repetition) through today in
    date order and returns the current run, the best length (including
    the in-progress run), and the closed intervals.  The backend streak
    calculator is not in the inspected source. -/
def computeStreaks (h : Habit) (reps : List Repetition) (startDay today : ℕ) :
    StreakResult :=
  ⟨(streakWalk h reps startDay today).run, (streakWalk h reps startDay today).best,
    (streakWalk h reps startDay today).intervals⟩

/-- An unbroken run of `n` completed daily repetitions starting on day
    `start`, one per day. -/
def dailyReps (hid start n : ℕ) : List Repetition :=
  (List.range n).map (fun i => ⟨hid, start + i, RepStatus.completed, 1⟩)

/-! ### Repetition upsert (modelled from spec section 6) -/

/-- Two repetitions hit the same `unique_habit_date` key. -/
def repMatches (r s : Repetition) : Bool :=
  s.habit_id == r.habit_id && s.date == r.date

/-- Modelled from the spec: `upsertRepetition` is keyed by
    (habit, date) — if a repetition with the same key exists it is
    replaced, otherwise the new repetition is inserted, matching the
    schema's `unique_habit_date` constraint
    (src/frontend/src/types/index.ts, schema lines 353-374).  The
    backend upsert endpoint is not in the inspected source. -/
def upsertRepetition (reps : List Repetition) (r : Repetition) :
    List Repetition :=
  if reps.any (repMatches r) then
    reps.map (fun s => if repMatches r s then r else s)
  else r :: reps

/-- The day-outcome sequence the score calculator consumes, derived from
    the schedule evaluator over the walked date range. -/
def outcomesOf (h : Habit) (reps : List Repetition) (startDay today : ℕ) :
    List DayOutcome :=
  (List.range' startDay (today + 1 - startDay)).map
    (fun d => ⟨isScheduled h d, windowSatisfied h reps d⟩)

/-- The final score derived from a repetition history, starting at 0. -/
def scoreOf (h : Habit) (reps : List Repetition) (startDay today : ℕ)
    (k : ℚ) : ℚ :=
  finalScore k (outcomesOf h reps startDay today)

/-! ### Dashboard "Completed Today" counters (embedded from the source) -/

/-- Embedding of `fetchTodayCompletions` in
    src/frontend/src/pages/DashboardPage.tsx (lines 35-46): it fetches
    today's repetitions and builds
    `new Set(repetitions.map(r => r.habit_id))` — the habit ids of ALL of
    today's repetitions, with no status filter.  The JS `Set` is a list
    with duplicates removed; its size is the "Completed Today" count. -/
def todayCompletionsTsx (todayReps : List Repetition) : List ℕ :=
  (todayReps.map Repetition.habit_id).dedup

/-- Embedding of `fetchRepetitionsForDates` in src/unnamed/part_008
    (lines 53-71): from the fetched range it keeps today's repetitions
    and builds the set of habit ids of those with
    `status === 'completed'`. -/
def todayCompletions008 (reps : List Repetition) (today : ℕ) : List ℕ :=
  (((reps.filter (fun r => r.date == today)).filter
      (fun r => r.status == RepStatus.completed)).map Repetition.habit_id).dedup

/-! ### Weekday helpers (embedded from the source) -/

/-- The `days` array inside `getDayNames` (src/unnamed/part_006,
    line 311). -/
def dayNames : List String := ["Sun", "Mon", "Tue", "Wed", "Thu", "Fri", "Sat"]

/-- Embedding of `getDayNames` in src/unnamed/part_006 (lines 310-317):
    select the day names whose bit `1 << i` is set, then special-case
    every day, weekdays (five days with Sunday and Saturday clear) and
    weekends (two days with Sunday and Saturday set). -/
def getDayNames (daysOfWeek : ℕ) : String :=
  let selected := ((List.range 7).filter
    (fun i => daysOfWeek &&& (1 <<< i) != 0)).map (fun i => dayNames.getD i "")
  if selected.length = 7 then "Every day"
  else if selected.length = 5 ∧ daysOfWeek &&& 1 = 0 ∧ daysOfWeek &&& 64 = 0 then
    "Weekdays"
  else if selected.length = 2 ∧ daysOfWeek &&& 1 ≠ 0 ∧ daysOfWeek &&& 64 ≠ 0 then
    "Weekends"
  else String.intercalate ", " selected

/-- Embedding of `DAYS_OF_WEEK` in
    src/frontend/src/components/ReminderDialog.tsx (lines 25-33). -/
def DAYS_OF_WEEK : List (String × ℕ) :=
  [("Sun", 1), ("Mon", 2), ("Tue", 4), ("Wed", 8), ("Thu", 16), ("Fri", 32),
    ("Sat", 64)]

/-- Embedding of `toggleDay` in
    src/frontend/src/components/ReminderDialog.tsx (lines 51-53):
    `setDaysOfWeek(prev => prev ^ dayValue)`. -/
def toggleDay (prev dayValue : ℕ) : ℕ := prev ^^^ dayValue

/-- Embedding of `isDaySelected` in the same dialog (lines 55-57):
    `(daysOfWeek & dayValue) !== 0`. -/
def isDaySelected (daysOfWeek dayValue : ℕ) : Bool := daysOfWeek &&& dayValue != 0

/-! ### Check-in dialog submission (embedded from the source) -/

/-- Embedding of the value field sent by `handleSubmit` in
    src/unnamed/part_002 (lines 227-248, `HabitCheckInDialog`):
    `value: status === 'partial' ? value : 1` — the entered amount is
    kept only for the partly-done status, every other status stores the
    constant 1. -/
def submittedValue (status : RepStatus) (enteredValue : ℚ) : ℚ :=
  if status = RepStatus.partway then enteredValue else 1

/-- Embedding of the status-grid filter in the same dialog (line 272):
    the partly-done option is offered only when
    `habit.habit_type === 'numerical'`. -/
def showsPartwayOption (t : HabitType) : Bool := t == HabitType.numerical

/-! ### Statistics page per-habit fetch (embedded from the source) -/

/-- Embedding of the `.catch(() => null)` on each per-habit statistics
    promise in `fetchStatistics` (src/unnamed/part_006, lines 36-41): a
    failed fetch is replaced by the placeholder `none`. -/
def catchToNull {ε α : Type} (r : Except ε α) : Option α :=
  match r with
  | .ok a => some a
  | .error _ => none

/-- Embedding of `fetchStatistics` in src/unnamed/part_006
    (lines 26-51): fetch detailed statistics for the first five active
    habits, replace each failure by the `none` placeholder, and filter
    the placeholders out of the displayed list
    (`stats.filter(s => s !== null)`). -/
def fetchStatistics {ε α : Type} (fetchDetailed : ℕ → Except ε α)
    (activeHabits : List ℕ) : List α :=
  ((activeHabits.take 5).map (fun hb => catchToNull (fetchDetailed hb))).filterMap id

/-! ### Helper lemmas -/

lemma clamp01_nonneg (x : ℚ) : 0 ≤ clamp01 x := le_max_left _ _

lemma clamp01_le_one (x : ℚ) : clamp01 x ≤ 1 := by
  unfold clamp01
  exact max_le (by norm_num) (min_le_left _ _)

lemma clamp01_eq_self {x : ℚ} (h0 : 0 ≤ x) (h1 : x ≤ 1) : clamp01 x = x := by
  unfold clamp01
  rw [min_eq_right h1, max_eq_right h0]

/-- One step of the score recurrence preserves the [0,1] invariant. -/
lemma computeScore_mem_unit (k prev : ℚ) (o : DayOutcome)
    (hp0 : 0 ≤ prev) (hp1 : prev ≤ 1) :
    0 ≤ computeScore k prev o ∧ computeScore k prev o ≤ 1 := by
  unfold computeScore
  by_cases hd : o.due
  · simp only [hd, if_true]
    exact ⟨clamp01_nonneg _, clamp01_le_one _⟩
  · simp only [hd, if_false]
    exact ⟨hp0, hp1⟩

/-- Every entry of the score trace stays in [0,1] when started in [0,1]. -/
lemma scoreTrace_mem_unit (k : ℚ) (outs : List DayOutcome) :
    ∀ prev : ℚ, 0 ≤ prev → prev ≤ 1 →
      ∀ s ∈ scoreTrace k prev outs, 0 ≤ s ∧ s ≤ 1 := by
  induction outs with
  | nil => intro prev _ _ s hs; simp [scoreTrace] at hs
  | cons o os ih =>
    intro prev hp0 hp1 s hs
    rw [scoreTrace] at hs
    rcases computeScore_mem_unit k prev o hp0 hp1 with ⟨h0, h1⟩
    rcases List.mem_cons.mp hs with h | h
    · subst h; exact ⟨h0, h1⟩
    · exact ih (computeScore k prev o) h0 h1 s h

/-- Bounds on the fixed-point storage of a score in [0,1]. -/
lemma storedScore_mem (s : ℚ) (h0 : 0 ≤ s) (h1 : s ≤ 1) :
    0 ≤ storedScore s ∧ storedScore s ≤ 100000 := by
  unfold storedScore
  refine ⟨Int.le_floor.mpr (by push_cast; positivity), ?_⟩
  have hle : s * 100000 ≤ (100000 : ℚ) := by nlinarith
  calc ⌊s * 100000⌋ ≤ ⌊(100000 : ℚ)⌋ := Int.floor_le_floor hle
    _ = 100000 := by norm_num

/-- A `skipped` or `failed` repetition never qualifies. -/
lemma qualifies_eq_false (h : Habit) (r : Repetition)
    (hst : r.status = RepStatus.skipped ∨ r.status = RepStatus.failed) :
    qualifies h r = false := by
  rcases hst with hst | hst <;> simp [qualifies, hst]

/-- A `completed` repetition always qualifies. -/
lemma qualifies_eq_true (h : Habit) (r : Repetition)
    (hst : r.status = RepStatus.completed) : qualifies h r = true := by
  simp [qualifies, hst]

/-- Prepending a non-qualifying repetition leaves every window count
    unchanged. -/
lemma windowSatisfied_cons_nonqual (h : Habit) (reps : List Repetition)
    (r : Repetition) (hq : qualifies h r = false) (d : ℕ) :
    windowSatisfied h (r :: reps) d = windowSatisfied h reps d := by
  unfold windowSatisfied
  rw [List.filter_cons]
  simp [hq]

/-- A qualifying repetition dated inside the window forces satisfaction
    when `freq_num = 1`. -/
lemma windowSatisfied_of_mem (h : Habit) (reps : List Repetition) (d : ℕ)
    (hfn : h.freq_num = 1) (hden : 1 ≤ h.freq_den) (r : Repetition)
    (hr : r ∈ reps) (hdate : r.date = d) (hq : qualifies h r = true) :
    windowSatisfied h reps d = true := by
  unfold windowSatisfied
  rw [hfn]
  have hmem : r ∈ reps.filter
      (fun s => d < s.date + h.freq_den && s.date ≤ d && qualifies h s) := by
    apply List.mem_filter.mpr
    refine ⟨hr, ?_⟩
    simp only [hdate, hq, Bool.and_true, Bool.and_eq_true, decide_eq_true_eq]
    omega
  have hlen := List.length_pos_of_mem hmem
  simp only [decide_eq_true_eq]
  omega

/-- With no repetitions at all, no window is ever satisfied (as long as
    the frequency numerator is positive). -/
lemma windowSatisfied_nil (h : Habit) (hfn : 1 ≤ h.freq_num) (d : ℕ) :
    windowSatisfied h [] d = false := by
  unfold windowSatisfied
  simp only [List.filter_nil, List.length_nil, decide_eq_false_iff_not]
  omega

/-- Folding a step function that fixes the state leaves it unchanged. -/
lemma foldl_fixed {α β : Type} (g : α → β → α) (a : α) (hg : ∀ b, g a b = a) :
    ∀ l : List β, l.foldl g a = a := by
  intro l
  induction l with
  | nil => rfl
  | cons x xs ih => rw [List.foldl_cons, hg]; exact ih

/-- On a range of days that are all scheduled and satisfied, the streak
    walk adds the range length to the run and to the best, and records
    no interval. -/
lemma foldl_all_satisfied (h : Habit) (reps : List Repetition) :
    ∀ (n a : ℕ) (st : StreakState), st.run ≤ st.best →
      (∀ d ∈ List.range' a n,
        isScheduled h d = true ∧ windowSatisfied h reps d = true) →
      ((List.range' a n).foldl (streakStep h reps) st).run = st.run + n ∧
      ((List.range' a n).foldl (streakStep h reps) st).best =
        max st.best (st.run + n) ∧
      ((List.range' a n).foldl (streakStep h reps) st).intervals =
        st.intervals := by
  intro n
  induction n with
  | zero =>
    intro a st hrb _
    rw [show List.range' a 0 = [] from rfl, List.foldl_nil]
    exact ⟨by omega, by rw [Nat.add_zero, Nat.max_eq_left hrb], rfl⟩
  | succ m ih =>
    intro a st hrb hall
    rw [List.range'_succ _ _ _, List.foldl_cons]
    have ha := hall a (by rw [List.range'_succ _ _ _]; exact List.mem_cons_self _ _)
    have hstep : streakStep h reps st a =
        { run := st.run + 1
          runStart := if st.run = 0 then a else st.runStart
          runEnd := a
          best := max st.best (st.run + 1)
          intervals := st.intervals } := by
      unfold streakStep
      rw [ha.1, ha.2]
      simp
    rw [hstep]
    have hall' : ∀ d ∈ List.range' (a + 1) m,
        isScheduled h d = true ∧ windowSatisfied h reps d = true := by
      intro d hd
      exact hall d (by rw [List.range'_succ _ _ _]; exact List.mem_cons_of_mem _ hd)
    have := ih (a + 1)
      { run := st.run + 1
        runStart := if st.run = 0 then a else st.runStart
        runEnd := a
        best := max st.best (st.run + 1)
        intervals := st.intervals }
      (le_max_right _ _) hall'
    simp only at this
    refine ⟨?_, ?_, this.2.2⟩
    · rw [this.1]; omega
    · rw [this.2.1, max_assoc,
        Nat.max_eq_right (by omega : st.run + 1 ≤ st.run + 1 + m)]
      congr 1
      omega

/-- Prepending a non-qualifying repetition leaves every walk step
    unchanged. -/
lemma streakStep_cons_nonqual (h : Habit) (reps : List Repetition)
    (r : Repetition) (hq : qualifies h r = false) :
    streakStep h (r :: reps) = streakStep h reps := by
  funext st d
  unfold streakStep
  rw [windowSatisfied_cons_nonqual h reps r hq d]

/-- All seven weekday bits of the default mask 127 are set. -/
lemma testBit_127 : ∀ i < 7, Nat.testBit 127 i = true := by decide

lemma repMatches_self (r : Repetition) : repMatches r r = true := by
  simp [repMatches]

/-- Upserting the same repetition twice produces the same repetition
    list as upserting it once. -/
lemma upsert_upsert (reps : List Repetition) (r : Repetition) :
    upsertRepetition (upsertRepetition reps r) r = upsertRepetition reps r := by
  by_cases hany : reps.any (repMatches r) = true
  · have h1 : upsertRepetition reps r =
        reps.map (fun s => if repMatches r s then r else s) := by
      unfold upsertRepetition; rw [if_pos hany]
    have hpf : ∀ s, repMatches r (if repMatches r s then r else s) =
        repMatches r s := by
      intro s
      by_cases hs : repMatches r s = true
      · rw [if_pos hs, repMatches_self, hs]
      · rw [if_neg hs]
    have hany2 : (reps.map (fun s => if repMatches r s then r else s)).any
        (repMatches r) = true := by
      rw [List.any_map]
      have hco : (repMatches r ∘ fun s => if repMatches r s then r else s) =
          repMatches r := by
        funext s; exact hpf s
      rw [hco]; exact hany
    rw [h1]
    unfold upsertRepetition
    rw [if_pos hany2, List.map_map]
    congr 1
    funext s
    by_cases hs : repMatches r s = true
    · simp only [Function.comp]
      rw [if_pos hs, if_pos (repMatches_self r)]
    · simp only [Function.comp]
      rw [if_neg hs, if_neg hs]
  · have hanyf : reps.any (repMatches r) = false := by
      revert hany; cases reps.any (repMatches r) <;> simp
    have h1 : upsertRepetition reps r = r :: reps := by
      unfold upsertRepetition; rw [if_neg hany]
    rw [h1]
    unfold upsertRepetition
    have hany2 : (r :: reps).any (repMatches r) = true := by
      simp [repMatches_self]
    rw [if_pos hany2]
    simp only [List.map_cons, if_pos (repMatches_self r)]
    congr 1
    have hall : ∀ s ∈ reps, (if repMatches r s then r else s) = s := by
      intro s hs
      exact if_neg (List.any_eq_false.mp hanyf s hs)
    rw [List.map_congr_left hall]
    simp

lemma scoreTrace_example :
    scoreTrace (1/2 : ℚ) 0 [⟨true, true⟩, ⟨true, false⟩] = [1/2, 1/4] := by
  norm_num [scoreTrace, computeScore, clamp01]

/-- `isDaySelected` on a power of two reads exactly that bit. -/
lemma isDaySelected_pow (d i : ℕ) : isDaySelected d (2 ^ i) = d.testBit i := by
  unfold isDaySelected
  rw [Nat.and_two_pow]
  cases h : d.testBit i <;> simp [h]

/-- The "Weekdays"/"Weekends" labels characterise the masks 62 and 65
    among all 7-bit masks. -/
lemma getDayNames_char : ∀ m < 128,
    (getDayNames m = "Weekdays" ↔ m = 62) ∧
    (getDayNames m = "Weekends" ↔ m = 65) := by decide

end Habito

open Habito

/-- C1: starting from the initial score 0 of a brand-new habit, every
    entry of the score series produced by feeding any finite sequence of
    day outcomes to `computeScore` in chronological order lies in
    [0, 1], given a decay constant k in (0, 1). -/
theorem score_bounded_C1 (k : ℚ) (_hk0 : 0 < k) (_hk1 : k < 1)
    (outs : List DayOutcome) (s : ℚ) (hs : s ∈ scoreTrace k 0 outs) :
    0 ≤ s ∧ s ≤ 1 :=
  scoreTrace_mem_unit k outs 0 le_rfl (by norm_num) s hs

theorem score_bounded_C1_witness :
    (0 < (1/2 : ℚ) ∧ (1/2 : ℚ) < 1 ∧
      (1/2 : ℚ) ∈ scoreTrace (1/2) 0 [⟨true, true⟩, ⟨true, false⟩]) ∧
      (0 ≤ (1/2 : ℚ) ∧ (1/2 : ℚ) ≤ 1) :=
  ⟨⟨by norm_num, by norm_num, by rw [scoreTrace_example]; norm_num⟩,
    score_bounded_C1 (1/2) (by norm_num) (by norm_num)
      [⟨true, true⟩, ⟨true, false⟩] (1/2)
      (by rw [scoreTrace_example]; norm_num)⟩

/-- C2: on a due day `computeScore` returns
    `previousScore * k + (1 - k)` when satisfied and `previousScore * k`
    otherwise (the clamp to [0,1] is the identity there), on a non-due
    day the score is carried forward unchanged, and the stored
    fixed-point value is an integer in [0, 100000]. -/
theorem score_update_C2 (k prev : ℚ) (o : DayOutcome)
    (hk0 : 0 < k) (hk1 : k < 1) (hp0 : 0 ≤ prev) (hp1 : prev ≤ 1) :
    (o.due = true →
      computeScore k prev o =
        prev * k + (if o.satisfied then (1 : ℚ) else 0) * (1 - k)) ∧
    (o.due = false → computeScore k prev o = prev) ∧
    0 ≤ storedScore (computeScore k prev o) ∧
    storedScore (computeScore k prev o) ≤ 100000 := by
  have hmem : 0 ≤ computeScore k prev o ∧ computeScore k prev o ≤ 1 :=
    computeScore_mem_unit k prev o hp0 hp1
  refine ⟨?_, ?_, (storedScore_mem _ hmem.1 hmem.2).1,
    (storedScore_mem _ hmem.1 hmem.2).2⟩
  · intro hd
    unfold computeScore
    rw [hd, if_pos rfl]
    have hb0 : (0 : ℚ) ≤ (if o.satisfied then (1 : ℚ) else 0) := by
      split <;> norm_num
    have hb1 : (if o.satisfied then (1 : ℚ) else 0) ≤ 1 := by
      split <;> norm_num
    apply clamp01_eq_self
    · nlinarith
    · nlinarith
  · intro hd
    unfold computeScore
    rw [hd]
    simp

theorem score_update_C2_witness :
    (0 < (1/2 : ℚ) ∧ (1/2 : ℚ) < 1 ∧ 0 ≤ (0 : ℚ) ∧ (0 : ℚ) ≤ 1) ∧
    (((⟨true, true⟩ : DayOutcome)).due = true →
      computeScore (1/2) 0 ⟨true, true⟩ =
        0 * (1/2) +
          (if ((⟨true, true⟩ : DayOutcome)).satisfied then (1 : ℚ) else 0) *
            (1 - 1/2)) ∧
    (((⟨true, true⟩ : DayOutcome)).due = false →
      computeScore (1/2) 0 ⟨true, true⟩ = 0) ∧
    0 ≤ storedScore (computeScore (1/2) 0 ⟨true, true⟩) ∧
    storedScore (computeScore (1/2) 0 ⟨true, true⟩) ≤ 100000 :=
  ⟨⟨by norm_num, by norm_num, le_rfl, by norm_num⟩,
    (score_update_C2 (1/2) 0 ⟨true, true⟩ (by norm_num) (by norm_num)
      le_rfl (by norm_num)).1,
    (score_update_C2 (1/2) 0 ⟨true, true⟩ (by norm_num) (by norm_num)
      le_rfl (by norm_num)).2.1,
    (score_update_C2 (1/2) 0 ⟨true, true⟩ (by norm_num) (by norm_num)
      le_rfl (by norm_num)).2.2.1,
    (score_update_C2 (1/2) 0 ⟨true, true⟩ (by norm_num) (by norm_num)
      le_rfl (by norm_num)).2.2.2⟩

/-- C3: inserting a repetition with status `skipped` or `failed` into a
    habit's history leaves `computeStreaks` — in particular
    `current_streak` — unchanged, so it cannot decrease it.  (This holds
    for a repetition on any day, due or not: such a repetition never
    qualifies, so no window count changes; the non-due restriction in
    the claim is not even needed.) -/
theorem streak_insert_nonqual_C3 (h : Habit) (reps : List Repetition)
    (r : Repetition)
    (hst : r.status = RepStatus.skipped ∨ r.status = RepStatus.failed)
    (startDay today : ℕ) :
    (computeStreaks h (r :: reps) startDay today).current =
      (computeStreaks h reps startDay today).current ∧
    computeStreaks h (r :: reps) startDay today =
      computeStreaks h reps startDay today := by
  have hq := qualifies_eq_false h r hst
  have heq : computeStreaks h (r :: reps) startDay today =
      computeStreaks h reps startDay today := by
    unfold computeStreaks streakWalk
    rw [streakStep_cons_nonqual h reps r hq]
  exact ⟨by rw [heq], heq⟩

theorem streak_insert_nonqual_C3_witness :
    ((Repetition.mk 0 1 RepStatus.skipped 1).status = RepStatus.skipped ∨
      (Repetition.mk 0 1 RepStatus.skipped 1).status = RepStatus.failed) ∧
    ((computeStreaks ⟨HabitType.boolean, none, none, 1, 1, 127⟩
        (⟨0, 1, RepStatus.skipped, 1⟩ :: [⟨0, 0, RepStatus.completed, 1⟩]) 0 1).current =
      (computeStreaks ⟨HabitType.boolean, none, none, 1, 1, 127⟩
        [⟨0, 0, RepStatus.completed, 1⟩] 0 1).current ∧
    computeStreaks ⟨HabitType.boolean, none, none, 1, 1, 127⟩
        (⟨0, 1, RepStatus.skipped, 1⟩ :: [⟨0, 0, RepStatus.completed, 1⟩]) 0 1 =
      computeStreaks ⟨HabitType.boolean, none, none, 1, 1, 127⟩
        [⟨0, 0, RepStatus.completed, 1⟩] 0 1) :=
  ⟨Or.inl rfl,
    streak_insert_nonqual_C3 ⟨HabitType.boolean, none, none, 1, 1, 127⟩
      [⟨0, 0, RepStatus.completed, 1⟩] ⟨0, 1, RepStatus.skipped, 1⟩
      (Or.inl rfl) 0 1⟩

/-- C4: for a daily habit (`freq_num = 1`, `freq_den = 1`, all weekdays
    active) with an unbroken completed history of N consecutive days
    ending today, `computeStreaks` yields current = best = N with no
    closed interval; and EVERY habit (any frequency, any schedule, with
    the spec-invariant positive `freq_num`) with zero repetitions yields
    current = 0, best = 0, and an empty interval list. -/
theorem daily_streak_C4 (h : Habit) (hid today N : ℕ)
    (hfn : h.freq_num = 1) (hfd : h.freq_den = 1)
    (hws : h.weekday_schedule = 127) (hN : N ≤ today + 1) :
    computeStreaks h (dailyReps hid (today + 1 - N) N) (today + 1 - N) today =
      ⟨N, N, []⟩ ∧
    ∀ g : Habit, 1 ≤ g.freq_num →
      ∀ s t : ℕ, computeStreaks g [] s t = ⟨0, 0, []⟩ := by
  have hsched : ∀ d, isScheduled h d = true := by
    intro d
    unfold isScheduled
    rw [hws]
    exact testBit_127 (d % 7) (Nat.mod_lt _ (by norm_num))
  constructor
  · have hcnt : today + 1 - (today + 1 - N) = N := by omega
    have hall : ∀ d ∈ List.range' (today + 1 - N) N,
        isScheduled h d = true ∧
          windowSatisfied h (dailyReps hid (today + 1 - N) N) d = true := by
      intro d hd
      have hrange := List.mem_range'_1.mp hd
      refine ⟨hsched d, ?_⟩
      apply windowSatisfied_of_mem h _ d hfn (by omega)
        ⟨hid, d, RepStatus.completed, 1⟩ ?_ rfl (qualifies_eq_true _ _ rfl)
      unfold dailyReps
      apply List.mem_map.mpr
      refine ⟨d - (today + 1 - N), List.mem_range.mpr (by omega), ?_⟩
      have hday : today + 1 - N + (d - (today + 1 - N)) = d := by omega
      rw [hday]
    have hfold := foldl_all_satisfied h (dailyReps hid (today + 1 - N) N) N
      (today + 1 - N) initStreakState le_rfl hall
    unfold computeStreaks streakWalk
    rw [hcnt]
    rw [show (initStreakState.run : ℕ) = 0 from rfl,
      show (initStreakState.best : ℕ) = 0 from rfl,
      show (initStreakState.intervals : List (ℕ × ℕ × ℕ)) = [] from rfl] at hfold
    rw [hfold.1, hfold.2.1, hfold.2.2]
    simp [Nat.zero_max]
  · intro g hg s t
    have hfix : ∀ d, streakStep g [] initStreakState d = initStreakState := by
      intro d
      unfold streakStep
      rw [windowSatisfied_nil g hg d]
      simp [initStreakState]
    unfold computeStreaks streakWalk
    rw [foldl_fixed _ _ hfix]
    rfl

theorem daily_streak_C4_witness :
    ((⟨HabitType.boolean, none, none, 1, 1, 127⟩ : Habit).freq_num = 1 ∧
      (⟨HabitType.boolean, none, none, 1, 1, 127⟩ : Habit).freq_den = 1 ∧
      (⟨HabitType.boolean, none, none, 1, 1, 127⟩ : Habit).weekday_schedule = 127 ∧
      3 ≤ 2 + 1) ∧
    (computeStreaks ⟨HabitType.boolean, none, none, 1, 1, 127⟩
        (dailyReps 0 (2 + 1 - 3) 3) (2 + 1 - 3) 2 = ⟨3, 3, []⟩ ∧
      ∀ g : Habit, 1 ≤ g.freq_num →
        ∀ s t : ℕ, computeStreaks g [] s t = ⟨0, 0, []⟩) :=
  ⟨⟨rfl, rfl, rfl, by norm_num⟩,
    daily_streak_C4 ⟨HabitType.boolean, none, none, 1, 1, 127⟩ 0 2 3
      rfl rfl rfl (by norm_num)⟩

/-- C5: upserting the same (habit, date, status, value) repetition twice
    produces derived streak and score outputs identical to upserting it
    once — `upsertRepetition` is idempotent per (habit, date), matching
    the schema's `unique_habit_date` uniqueness constraint. -/
theorem upsert_idempotent_C5 (h : Habit) (reps : List Repetition)
    (r : Repetition) (startDay today : ℕ) (k : ℚ) :
    computeStreaks h (upsertRepetition (upsertRepetition reps r) r)
        startDay today =
      computeStreaks h (upsertRepetition reps r) startDay today ∧
    scoreOf h (upsertRepetition (upsertRepetition reps r) r) startDay today k =
      scoreOf h (upsertRepetition reps r) startDay today k := by
  rw [upsert_upsert]
  exact ⟨rfl, rfl⟩

/-- C6 (code bug): the "Completed Today" set built by
    `fetchTodayCompletions` in src/frontend/src/pages/DashboardPage.tsx
    collects the habit ids of ALL of today's repetitions with no status
    filter, so a habit whose only repetition today is `skipped` IS
    counted as completed there (count 1), contradicting the claim; the
    sibling implementation in src/unnamed/part_008 filters on
    `status === 'completed'` and does not count it (count 0). -/
theorem completed_today_C6 :
    todayCompletionsTsx [⟨0, 5, RepStatus.skipped, 1⟩] = [0] ∧
    (todayCompletionsTsx [⟨0, 5, RepStatus.skipped, 1⟩]).length = 1 ∧
    todayCompletions008 [⟨0, 5, RepStatus.skipped, 1⟩] 5 = [] ∧
    (todayCompletions008 [⟨0, 5, RepStatus.skipped, 1⟩] 5).length = 0 := by
  refine ⟨?_, ?_, ?_, ?_⟩ <;> rfl

/-- C7: days-of-week values are the 7-bit mask with bit i for day i,
    i = 0 Sunday (Sun=1, ..., Sat=64); a day is scheduled for a
    weekday-restricted habit iff its weekday bit is set; and among 7-bit
    masks `getDayNames` returns "Weekdays" exactly for 62 (Mon-Fri) and
    "Weekends" exactly for 65 (Sat and Sun). -/
theorem weekday_bitmask_C7 (mask : ℕ) (hmask : mask < 128) :
    DAYS_OF_WEEK.map Prod.snd = (List.range 7).map (fun i => 2 ^ i) ∧
    (∀ (t : HabitType) (tv : Option ℚ) (tt : Option TargetType)
      (fn fd d : ℕ),
      isScheduled ⟨t, tv, tt, fn, fd, mask⟩ d = mask.testBit (d % 7)) ∧
    (getDayNames mask = "Weekdays" ↔ mask = 62) ∧
    (getDayNames mask = "Weekends" ↔ mask = 65) :=
  ⟨rfl, fun _ _ _ _ _ _ => rfl, (getDayNames_char mask hmask).1,
    (getDayNames_char mask hmask).2⟩

theorem weekday_bitmask_C7_witness :
    (62 < 128) ∧
    (DAYS_OF_WEEK.map Prod.snd = (List.range 7).map (fun i => 2 ^ i) ∧
    (∀ (t : HabitType) (tv : Option ℚ) (tt : Option TargetType)
      (fn fd d : ℕ),
      isScheduled ⟨t, tv, tt, fn, fd, 62⟩ d = Nat.testBit 62 (d % 7)) ∧
    (getDayNames 62 = "Weekdays" ↔ 62 = 62) ∧
    (getDayNames 62 = "Weekends" ↔ 62 = 65)) :=
  ⟨by norm_num, weekday_bitmask_C7 62 (by norm_num)⟩

/-- C8 counterexample: a numerical habit logged as `completed` with the
    user-entered amount 25 stores the value 1, not 25 — the check-in
    dialog sends the entered amount only for the partly-done status
    (`value: status === 'partial' ? value : 1`). -/
theorem checkin_value_C8_cex :
    submittedValue RepStatus.completed 25 = 1 ∧ (1 : ℚ) ≠ 25 := by
  exact ⟨rfl, by norm_num⟩

/-- C8 (amended): the stored check-in value is the user-entered amount
    exactly when the status is the partly-done one, and the constant 1
    for every other status; the dialog offers the partly-done option
    only for numerical habits (not for duration or boolean ones). -/
theorem checkin_value_C8 :
    (∀ v : ℚ, submittedValue RepStatus.partway v = v) ∧
    (∀ (s : RepStatus) (v : ℚ), s ≠ RepStatus.partway →
      submittedValue s v = 1) ∧
    showsPartwayOption HabitType.numerical = true ∧
    showsPartwayOption HabitType.duration = false ∧
    showsPartwayOption HabitType.boolean = false :=
  ⟨fun _ => rfl, fun _ _ hs => if_neg hs, rfl, rfl, rfl⟩

theorem checkin_value_C8_witness :
    submittedValue RepStatus.completed 3 = 1 :=
  checkin_value_C8.2.1 RepStatus.completed 3 (by decide)

/-- C9: a failed per-habit statistics fetch is isolated: the failed
    habit's promise resolves to the `none` placeholder, and every
    sibling habit whose fetch succeeds still contributes its statistics
    to the page's results — one broken habit never aborts the others. -/
theorem stats_isolation_C9 {ε α : Type} (fetchDetailed : ℕ → Except ε α)
    (habits : List ℕ) (bad : ℕ) (e : ε)
    (hbad : fetchDetailed bad = Except.error e) :
    catchToNull (fetchDetailed bad) = none ∧
    (∀ hb ∈ habits.take 5, ∀ s, fetchDetailed hb = Except.ok s →
      s ∈ fetchStatistics fetchDetailed habits) := by
  constructor
  · rw [hbad]; rfl
  · intro hb hmem s hok
    unfold fetchStatistics
    apply List.mem_filterMap.mpr
    refine ⟨some s, ?_, rfl⟩
    apply List.mem_map.mpr
    refine ⟨hb, hmem, ?_⟩
    rw [hok]
    rfl

theorem stats_isolation_C9_witness :
    ((fun n => if n = 1 then (Except.error "boom" : Except String ℕ)
        else Except.ok (n + 10)) 1 = Except.error "boom") ∧
    (catchToNull ((fun n => if n = 1 then (Except.error "boom" : Except String ℕ)
        else Except.ok (n + 10)) 1) = none ∧
    (∀ hb ∈ [0, 1, 2].take 5, ∀ s,
      (fun n => if n = 1 then (Except.error "boom" : Except String ℕ)
        else Except.ok (n + 10)) hb = Except.ok s →
      s ∈ fetchStatistics
        (fun n => if n = 1 then (Except.error "boom" : Except String ℕ)
          else Except.ok (n + 10)) [0, 1, 2])) :=
  ⟨rfl,
    stats_isolation_C9
      (fun n => if n = 1 then (Except.error "boom" : Except String ℕ)
        else Except.ok (n + 10)) [0, 1, 2] 1 "boom" rfl⟩

/-- C10: toggling a day value v ∈ {1,2,4,8,16,32,64} in the reminder
    dialog flips exactly that day's membership as reported by
    `isDaySelected`, leaves every other day's membership unchanged, and
    toggling twice restores the original mask (XOR involution). -/
theorem toggle_day_C10 (d v : ℕ) (hv : v ∈ [1, 2, 4, 8, 16, 32, 64]) :
    toggleDay (toggleDay d v) v = d ∧
    isDaySelected (toggleDay d v) v = !isDaySelected d v ∧
    ∀ w ∈ [1, 2, 4, 8, 16, 32, 64], w ≠ v →
      isDaySelected (toggleDay d v) w = isDaySelected d w := by
  have hvi : ∃ i, i < 7 ∧ v = 2 ^ i := by
    simp only [List.mem_cons, List.not_mem_nil, or_false] at hv
    rcases hv with rfl | rfl | rfl | rfl | rfl | rfl | rfl
    exacts [⟨0, by norm_num⟩, ⟨1, by norm_num⟩, ⟨2, by norm_num⟩,
      ⟨3, by norm_num⟩, ⟨4, by norm_num⟩, ⟨5, by norm_num⟩, ⟨6, by norm_num⟩]
  obtain ⟨i, _, rfl⟩ := hvi
  refine ⟨Nat.xor_cancel_right _ _, ?_, ?_⟩
  · unfold toggleDay
    rw [isDaySelected_pow, isDaySelected_pow, Nat.testBit_xor,
      Nat.testBit_two_pow_self, Bool.xor_true]
  · intro w hw hne
    have hwj : ∃ j, j < 7 ∧ w = 2 ^ j := by
      simp only [List.mem_cons, List.not_mem_nil, or_false] at hw
      rcases hw with rfl | rfl | rfl | rfl | rfl | rfl | rfl
      exacts [⟨0, by norm_num⟩, ⟨1, by norm_num⟩, ⟨2, by norm_num⟩,
        ⟨3, by norm_num⟩, ⟨4, by norm_num⟩, ⟨5, by norm_num⟩, ⟨6, by norm_num⟩]
    obtain ⟨j, _, rfl⟩ := hwj
    have hij : i ≠ j := fun hij => hne (by rw [hij])
    unfold toggleDay
    rw [isDaySelected_pow, isDaySelected_pow, Nat.testBit_xor,
      Nat.testBit_two_pow_of_ne hij, Bool.xor_false]

theorem toggle_day_C10_witness :
    ((4 : ℕ) ∈ [1, 2, 4, 8, 16, 32, 64]) ∧
    (toggleDay (toggleDay 127 4) 4 = 127 ∧
    isDaySelected (toggleDay 127 4) 4 = !isDaySelected 127 4 ∧
    ∀ w ∈ [1, 2, 4, 8, 16, 32, 64], w ≠ 4 →
      isDaySelected (toggleDay 127 4) w = isDaySelected 127 w) :=
  ⟨by norm_num, toggle_day_C10 127 4 (by norm_num)⟩
